import Mathlib

/-!
# eget: asset finders (`find.go`)

A shallow embedding of `find.go`.  The file has two finders:
`GithubAssetFinder.Find` (build a URL, one `http.Get`, status check,
`ioutil.ReadAll`, `json.Unmarshal`, flatten) and `DirectAssetFinder.Find`.

Modelling conventions.

* Go strings and byte slices are Lean `String`s (so only valid UTF-8 data is
  covered).
* The HTTP layer is a parameter `HTTPGet`: what `http.Get` answers for a URL.
  Reading the response body is part of the answer (`Body.data`, `Body.err`:
  the two results of `ioutil.ReadAll`).
* A Go result `([]string, error)` is the pair `urls : Option (List String)`
  (`none` is the nil slice) and `err : Option GoError` (`none` is nil).
* Every run records the calls it makes on the HTTP layer, in order.
* `json.Unmarshal` is embedded following `encoding/json`: the scanner
  (grammar, nesting limit), `unquote`, and the decoding of objects, arrays and
  literals into the struct `GithubRelease`.
-/

namespace Eget

/-! ## Errors, responses and the HTTP layer -/

/-- An error value made outside `find.go` (by `http.Get` or by reading the
body), identified by its message. -/
structure ExternalError where
  msg : String
  deriving DecidableEq, Repr

/-- The values of Go type `error` that `Find` can return. -/
inductive GoError where
  /-- an error handed over by the HTTP layer, held as is -/
  | external (e : ExternalError)
  /-- the value built by `fmt.Errorf` on line 40; `msg` is the text its
  `Error()` method returns -/
  | errorf (msg : String)
  /-- `*json.SyntaxError`: the body is not a JSON text -/
  | jsonInvalid
  /-- `*json.UnmarshalTypeError`; `value` is its `Value` field -/
  | jsonType (value : String)
  deriving DecidableEq, Repr

/-- The error was produced by `json.Unmarshal`. -/
def GoError.isDecode : GoError → Bool
  | .jsonInvalid => true
  | .jsonType _ => true
  | _ => false

/-- The outcome of `ioutil.ReadAll(resp.Body)`: the bytes read and the error. -/
structure Body where
  data : String
  err : Option ExternalError
  deriving DecidableEq, Repr

/-- The fields of `*http.Response` that `Find` uses. -/
structure Response where
  Status : String
  StatusCode : Int
  Body : Body
  deriving DecidableEq, Repr

/-- The HTTP layer: the two results `(resp, err)` of `http.Get(url)`. -/
abbrev HTTPGet := String → Except ExternalError Response

/-- A call made on the HTTP layer. -/
inductive Call where
  | get (url : String)
  | readAll
  | close
  deriving DecidableEq, Repr

/-- One run of `Find`: the calls made, and the two results. -/
structure FindRun where
  calls : List Call
  urls : Option (List String)
  err : Option GoError
  deriving DecidableEq, Repr

/-- The constant `http.StatusOK`. -/
def StatusOK : Int := 200

/-! ## JSON texts: the scanner of `encoding/json`

`json.Unmarshal` first runs `checkValid` over the whole input (a state machine
stepping over every byte, with a stack of parse states) and only then decodes.
`Scanner` is that machine; next to each parse state it keeps the values read
so far, so that one pass yields the value tree the decoder walks. -/

/-- A JSON value as the decoder sees it.  Object members keep their order and
their duplicates; a number keeps its literal text. -/
inductive JSON where
  | null
  | bool (b : Bool)
  | number (lit : String)
  | string (s : String)
  | array (elems : List JSON)
  | object (members : List (String × JSON))
  deriving Repr

/-- The step functions of the scanner (`stateBeginValue`, ...). -/
inductive Step where
  | beginValueOrEmpty | beginValue | beginStringOrEmpty | beginString
  | endValue | endTop
  | inString | inStringEsc | inStringEscU | inStringEscU1 | inStringEscU12
  | inStringEscU123
  | neg | num1 | num0 | dot | dot0 | e | eSign | e0
  | t | tr | tru | f | fa | fal | fals | n | nu | nul
  deriving DecidableEq, Repr

/-- An entry of the scanner's `parseState` stack (`parseObjectKey`,
`parseObjectValue`, `parseArrayValue`), with what has been read of that object
or array so far, newest first. -/
inductive Frame where
  | objectKey (members : List (String × JSON)) (key : Option String)
  | objectValue (members : List (String × JSON)) (key : Option String)
  | arrayValue (elems : List JSON)
  deriving Repr

/-- The scanner: current step function, parse-state stack (top first), the
raw text of the literal being read (newest first), and the finished top-level
value. -/
structure Scanner where
  step : Step
  parseState : List Frame
  lit : List Char
  top : Option JSON
  deriving Repr

/-- The constant `maxNestingDepth`. -/
def maxNestingDepth : Nat := 10000

/-- `isSpace`. -/
def isSpace (c : Char) : Bool :=
  c.toNat ≤ 32 && (c == ' ' || c == '\t' || c == '\r' || c == '\n')

/-- A decimal digit. -/
def isDigit (c : Char) : Bool := 48 ≤ c.toNat && c.toNat ≤ 57

/-- The value of a hexadecimal digit. -/
def hexValue (c : Char) : Option Nat :=
  let n := c.toNat
  if 48 ≤ n && n ≤ 57 then some (n - 48)
  else if 97 ≤ n && n ≤ 102 then some (n - 97 + 10)
  else if 65 ≤ n && n ≤ 70 then some (n - 65 + 10)
  else none

/-- `getu4`: the number written by `\uXXXX` at the head of the text. -/
def getu4 : List Char → Option Nat
  | '\\' :: 'u' :: a :: b :: c :: d :: _ =>
    match hexValue a, hexValue b, hexValue c, hexValue d with
    | some x, some y, some z, some w => some (x * 4096 + y * 256 + z * 16 + w)
    | _, _, _, _ => none
  | _ => none

/-- `utf16.IsSurrogate`. -/
def isSurrogate (r : Nat) : Bool := 0xd800 ≤ r && r < 0xe000

/-- `utf16.DecodeRune`, `none` standing for the replacement character. -/
def decodeRune (r1 r2 : Nat) : Option Nat :=
  if 0xd800 ≤ r1 && r1 < 0xdc00 && 0xdc00 ≤ r2 && r2 < 0xe000 then
    some ((r1 - 0xd800) * 1024 + (r2 - 0xdc00) + 0x10000)
  else none

/-- The rune `unicode.ReplacementChar`. -/
def replacementChar : Char := Char.ofNat 0xfffd

/-- The character a one-letter escape stands for. -/
def escapeChar (c : Char) : Char :=
  if c == 'b' then Char.ofNat 8
  else if c == 'f' then Char.ofNat 12
  else if c == 'n' then '\n'
  else if c == 'r' then '\r'
  else if c == 't' then '\t'
  else c

/-- `unquote` on the text between the quotes of a scanned string literal.
`skip` counts characters of an escape already consumed. -/
def unquote : Nat → List Char → List Char
  | _, [] => []
  | skip + 1, _ :: cs => unquote skip cs
  | 0, c :: cs =>
    if c == '\\' then
      match cs with
      | [] => []
      | e :: _ =>
        if e == 'u' then
          match getu4 (c :: cs) with
          | none => []
          | some rr =>
            if isSurrogate rr then
              match (getu4 (cs.drop 5)).bind (decodeRune rr) with
              | some dec => Char.ofNat dec :: unquote 11 cs
              | none => replacementChar :: unquote 5 cs
            else Char.ofNat rr :: unquote 5 cs
        else escapeChar e :: unquote 1 cs
    else c :: unquote 0 cs

/-- A value has just been read: hand it to the enclosing object or array, or
keep it as the top-level value. -/
def complete (v : JSON) : List Frame → Option JSON → List Frame × Option JSON
  | [], _ => ([], some v)
  | Frame.objectKey ms key :: rest, top =>
    match v with
    | JSON.string k => (Frame.objectKey ms (some k) :: rest, top)
    | _ => (Frame.objectKey ms key :: rest, top)
  | Frame.objectValue ms (some k) :: rest, top =>
    (Frame.objectValue ((k, v) :: ms) none :: rest, top)
  | Frame.objectValue ms none :: rest, top =>
    (Frame.objectValue ms none :: rest, top)
  | Frame.arrayValue es :: rest, top => (Frame.arrayValue (v :: es) :: rest, top)

/-- The scanner after a value was read, continuing in step `st`. -/
def Scanner.finish (s : Scanner) (st : Step) (v : JSON) : Scanner :=
  let r := complete v s.parseState s.top
  ⟨st, r.1, [], r.2⟩

/-- The scanner in another step, one more character added to the literal. -/
def Scanner.more (s : Scanner) (st : Step) (c : Char) : Scanner :=
  ⟨st, s.parseState, c :: s.lit, s.top⟩

/-- `pushParseState`: fails beyond `maxNestingDepth`. -/
def pushParseState (s : Scanner) (fr : Frame) (st : Step) : Option Scanner :=
  if s.parseState.length + 1 ≤ maxNestingDepth then
    some ⟨st, fr :: s.parseState, s.lit, s.top⟩
  else none

/-- `popParseState`; the finished object or array `v` is handed on. -/
def popParseState (s : Scanner) (v : JSON) : Scanner :=
  let rest := s.parseState.tail
  let r := complete v rest s.top
  ⟨if rest.isEmpty then Step.endTop else Step.endValue, r.1, [], r.2⟩

/-- `stateEndTop`: only space may follow the top-level value. -/
def stateEndTop (s : Scanner) (c : Char) : Option Scanner :=
  if isSpace c then some s else none

/-- `stateEndValue`: after a value, such as after a quoted string. -/
def stateEndValue (s : Scanner) (c : Char) : Option Scanner :=
  match s.parseState with
  | [] => stateEndTop ⟨Step.endTop, [], s.lit, s.top⟩ c
  | fr :: rest =>
    if isSpace c then some ⟨Step.endValue, s.parseState, s.lit, s.top⟩
    else
      match fr with
      | Frame.objectKey ms key =>
        if c == ':' then
          some ⟨Step.beginValue, Frame.objectValue ms key :: rest, s.lit, s.top⟩
        else none
      | Frame.objectValue ms _ =>
        if c == ',' then
          some ⟨Step.beginString, Frame.objectKey ms none :: rest, s.lit, s.top⟩
        else if c == '}' then some (popParseState s (JSON.object ms.reverse))
        else none
      | Frame.arrayValue es =>
        if c == ',' then some ⟨Step.beginValue, s.parseState, s.lit, s.top⟩
        else if c == ']' then some (popParseState s (JSON.array es.reverse))
        else none

/-- `stateBeginValue`: at the beginning of the input or of a value. -/
def stateBeginValue (s : Scanner) (c : Char) : Option Scanner :=
  if isSpace c then some s
  else if c == '{' then pushParseState s (Frame.objectKey [] none) Step.beginStringOrEmpty
  else if c == '[' then pushParseState s (Frame.arrayValue []) Step.beginValueOrEmpty
  else if c == '"' then some ⟨Step.inString, s.parseState, [], s.top⟩
  else if c == '-' then some ⟨Step.neg, s.parseState, [c], s.top⟩
  else if c == '0' then some ⟨Step.num0, s.parseState, [c], s.top⟩
  else if c == 't' then some ⟨Step.t, s.parseState, [c], s.top⟩
  else if c == 'f' then some ⟨Step.f, s.parseState, [c], s.top⟩
  else if c == 'n' then some ⟨Step.n, s.parseState, [c], s.top⟩
  else if 49 ≤ c.toNat && c.toNat ≤ 57 then some ⟨Step.num1, s.parseState, [c], s.top⟩
  else none

/-- `stateBeginValueOrEmpty`: after reading `[`. -/
def stateBeginValueOrEmpty (s : Scanner) (c : Char) : Option Scanner :=
  if isSpace c then some s
  else if c == ']' then stateEndValue s c
  else stateBeginValue s c

/-- `stateBeginString`: after reading `{"key": value,`. -/
def stateBeginString (s : Scanner) (c : Char) : Option Scanner :=
  if isSpace c then some s
  else if c == '"' then some ⟨Step.inString, s.parseState, [], s.top⟩
  else none

/-- `stateBeginStringOrEmpty`: after reading `{`. -/
def stateBeginStringOrEmpty (s : Scanner) (c : Char) : Option Scanner :=
  if isSpace c then some s
  else if c == '}' then
    match s.parseState with
    | Frame.objectKey ms _ :: rest =>
      stateEndValue ⟨s.step, Frame.objectValue ms none :: rest, s.lit, s.top⟩ c
    | _ => none
  else stateBeginString s c

/-- `stateInString`: after reading the opening quote. -/
def stateInString (s : Scanner) (c : Char) : Option Scanner :=
  if c == '"' then
    some (s.finish Step.endValue (JSON.string (String.mk (unquote 0 s.lit.reverse))))
  else if c == '\\' then some (s.more Step.inStringEsc c)
  else if c.toNat < 32 then none
  else some (s.more Step.inString c)

/-- `stateInStringEsc`: after a backslash inside a string. -/
def stateInStringEsc (s : Scanner) (c : Char) : Option Scanner :=
  if c == 'b' || c == 'f' || c == 'n' || c == 'r' || c == 't' || c == '\\'
      || c == '/' || c == '"' then
    some (s.more Step.inString c)
  else if c == 'u' then some (s.more Step.inStringEscU c)
  else none

/-- `stateInStringEscU` and its three successors: one hexadecimal digit each. -/
def stateInStringHex (s : Scanner) (next : Step) (c : Char) : Option Scanner :=
  if (hexValue c).isSome then some (s.more next c) else none

/-- `state0`: after reading `0` (or a longer integer part). -/
def state0 (s : Scanner) (c : Char) : Option Scanner :=
  if c == '.' then some (s.more Step.dot c)
  else if c == 'e' || c == 'E' then some (s.more Step.e c)
  else stateEndValue (s.finish Step.endValue (JSON.number (String.mk s.lit.reverse))) c

/-- `state1`: after reading a non-zero integer. -/
def state1 (s : Scanner) (c : Char) : Option Scanner :=
  if isDigit c then some (s.more Step.num1 c) else state0 s c

/-- `stateNeg`: after reading `-`. -/
def stateNeg (s : Scanner) (c : Char) : Option Scanner :=
  if c == '0' then some (s.more Step.num0 c)
  else if 49 ≤ c.toNat && c.toNat ≤ 57 then some (s.more Step.num1 c)
  else none

/-- `stateDot`: after reading the decimal point. -/
def stateDot (s : Scanner) (c : Char) : Option Scanner :=
  if isDigit c then some (s.more Step.dot0 c) else none

/-- `stateDot0`: after reading a digit behind the decimal point. -/
def stateDot0 (s : Scanner) (c : Char) : Option Scanner :=
  if isDigit c then some (s.more Step.dot0 c)
  else if c == 'e' || c == 'E' then some (s.more Step.e c)
  else stateEndValue (s.finish Step.endValue (JSON.number (String.mk s.lit.reverse))) c

/-- `stateESign`: after reading the exponent mark and a possible sign. -/
def stateESign (s : Scanner) (c : Char) : Option Scanner :=
  if isDigit c then some (s.more Step.e0 c) else none

/-- `stateE`: after reading the exponent mark. -/
def stateE (s : Scanner) (c : Char) : Option Scanner :=
  if c == '+' || c == '-' then some (s.more Step.eSign c) else stateESign s c

/-- `stateE0`: after reading a digit of the exponent. -/
def stateE0 (s : Scanner) (c : Char) : Option Scanner :=
  if isDigit c then some (s.more Step.e0 c)
  else stateEndValue (s.finish Step.endValue (JSON.number (String.mk s.lit.reverse))) c

/-- The states inside `true`, `false` and `null`: exactly `want` goes on. -/
def stateWord (s : Scanner) (want : Char) (next : Step) (c : Char) : Option Scanner :=
  if c == want then some (s.more next c) else none

/-- The last letter of `true`, `false` or `null`. -/
def stateWordEnd (s : Scanner) (want : Char) (v : JSON) (c : Char) : Option Scanner :=
  if c == want then some (s.finish Step.endValue v) else none

/-- One call `s.step(s, c)`; `none` is `scanError`. -/
def Scanner.next (s : Scanner) (c : Char) : Option Scanner :=
  match s.step with
  | Step.beginValueOrEmpty => stateBeginValueOrEmpty s c
  | Step.beginValue => stateBeginValue s c
  | Step.beginStringOrEmpty => stateBeginStringOrEmpty s c
  | Step.beginString => stateBeginString s c
  | Step.endValue => stateEndValue s c
  | Step.endTop => stateEndTop s c
  | Step.inString => stateInString s c
  | Step.inStringEsc => stateInStringEsc s c
  | Step.inStringEscU => stateInStringHex s Step.inStringEscU1 c
  | Step.inStringEscU1 => stateInStringHex s Step.inStringEscU12 c
  | Step.inStringEscU12 => stateInStringHex s Step.inStringEscU123 c
  | Step.inStringEscU123 => stateInStringHex s Step.inString c
  | Step.neg => stateNeg s c
  | Step.num1 => state1 s c
  | Step.num0 => state0 s c
  | Step.dot => stateDot s c
  | Step.dot0 => stateDot0 s c
  | Step.e => stateE s c
  | Step.eSign => stateESign s c
  | Step.e0 => stateE0 s c
  | Step.t => stateWord s 'r' Step.tr c
  | Step.tr => stateWord s 'u' Step.tru c
  | Step.tru => stateWordEnd s 'e' (JSON.bool true) c
  | Step.f => stateWord s 'a' Step.fa c
  | Step.fa => stateWord s 'l' Step.fal c
  | Step.fal => stateWord s 's' Step.fals c
  | Step.fals => stateWordEnd s 'e' (JSON.bool false) c
  | Step.n => stateWord s 'u' Step.nu c
  | Step.nu => stateWord s 'l' Step.nul c
  | Step.nul => stateWordEnd s 'l' JSON.null c

/-- The scanner after `reset`. -/
def Scanner.reset : Scanner := ⟨Step.beginValue, [], [], none⟩

/-- The loop of `checkValid`: step over every character. -/
def scan : Scanner → List Char → Option Scanner
  | s, [] => some s
  | s, c :: cs => (s.next c).bind fun s1 => scan s1 cs

/-- `eof`: the input is over; the value read, if the text was complete. -/
def Scanner.eof (s : Scanner) : Option JSON :=
  if s.step = Step.endTop then s.top
  else
    match s.next ' ' with
    | some s1 => if s1.step = Step.endTop then s1.top else none
    | none => none

/-- `checkValid` together with the value tree: `none` when the text is not
JSON (or nests deeper than `maxNestingDepth`). -/
def parse (data : String) : Option JSON :=
  (scan Scanner.reset data.toList).bind Scanner.eof

/-! ## Decoding into `GithubRelease`

`d.value` walking the value tree with the struct as target: `d.object` for the
struct types, `d.array` for the slice, `d.literalStore` for the string field.
A value that does not fit its target is skipped and the first such
`UnmarshalTypeError` is saved (`d.saveError`); `Unmarshal` returns it at the
end. -/

/-- The element type of `Assets`: `struct { DownloadURL string }`. -/
structure Asset where
  DownloadURL : String
  deriving DecidableEq, Repr

/-- A Go slice of assets: `elems` are the elements below `len`; `spare` is what
the backing array still holds behind `len` from an earlier, longer state (a
slice that is cut with `SetLen` keeps it, and growing with `SetLen` shows it
again). -/
structure AssetSlice where
  elems : List Asset
  spare : List Asset
  deriving DecidableEq, Repr

/-- `GithubRelease`: the assets portion of a release. -/
structure GithubRelease where
  Assets : AssetSlice
  deriving DecidableEq, Repr

/-- The zero value of `var release GithubRelease`. -/
def GithubRelease.zero : GithubRelease := ⟨⟨[], []⟩⟩

/-- The rune U+017F, which folds to `s`. -/
def smallLongEss : Char := Char.ofNat 0x17f

/-- The rune U+212A, which folds to `k`. -/
def kelvin : Char := Char.ofNat 0x212a

/-- `equalFoldRight s t` of `encoding/json` (fold.go): `bytes.EqualFold` for a
field name `s` that is all ASCII and has an `s` or a `k`; both field names of
`GithubRelease` are of this kind.  (Later releases compare `foldName` of both
sides, to the same effect.) -/
def equalFoldRight : List Char → List Char → Bool
  | [], t => t.isEmpty
  | _ :: _, [] => false
  | sb :: s, tb :: t =>
    if tb.toNat < 128 then
      if sb != tb then
        let sbUpper := sb.toNat &&& 0xdf
        if 65 ≤ sbUpper && sbUpper ≤ 90 then
          if sbUpper != (tb.toNat &&& 0xdf) then false else equalFoldRight s t
        else false
      else equalFoldRight s t
    else if sb == 's' || sb == 'S' then
      if tb != smallLongEss then false else equalFoldRight s t
    else if sb == 'k' || sb == 'K' then
      if tb != kelvin then false else equalFoldRight s t
    else false

/-- The field lookup of `d.object`: an exact match of the key with the field's
JSON name, or else a case-insensitive one. -/
def fieldMatches (name key : String) : Bool :=
  key == name || equalFoldRight name.toList key.toList

/-- The `Value` field of an `UnmarshalTypeError` for a JSON value. -/
def JSON.describe : JSON → String
  | JSON.null => "null"
  | JSON.bool _ => "bool"
  | JSON.number _ => "number"
  | JSON.string _ => "string"
  | JSON.array _ => "array"
  | JSON.object _ => "object"

/-- `d.saveError`: only the first error is kept. -/
def saveError (saved : Option GoError) (e : GoError) : Option GoError :=
  match saved with
  | none => some e
  | some first => some first

/-- A value decoded into a target of kind string (the field `DownloadURL`,
current content `cur`): a string is stored, `null` has no effect, anything
else is a type error. -/
def decodeString (v : JSON) (cur : String) (saved : Option GoError) :
    String × Option GoError :=
  match v with
  | JSON.string s => (s, saved)
  | JSON.null => (cur, saved)
  | other => (cur, saveError saved (GoError.jsonType other.describe))

/-- The member loop of `d.object` on an asset struct: a key that matches
`browser_download_url` decodes into `DownloadURL`, any other member is
skipped. -/
def decodeAssetMembers : List (String × JSON) → Asset → Option GoError →
    Asset × Option GoError
  | [], a, saved => (a, saved)
  | (k, v) :: ms, a, saved =>
    if fieldMatches "browser_download_url" k then
      let r := decodeString v a.DownloadURL saved
      decodeAssetMembers ms ⟨r.1⟩ r.2
    else decodeAssetMembers ms a saved

/-- A value decoded into an asset struct `a`. -/
def decodeAsset (v : JSON) (a : Asset) (saved : Option GoError) :
    Asset × Option GoError :=
  match v with
  | JSON.object ms => decodeAssetMembers ms a saved
  | JSON.null => (a, saved)
  | other => (a, saveError saved (GoError.jsonType other.describe))

/-- The element loop of `d.array` on the slice.  `backing` is what the slice's
array holds from the current index on; element `i` is decoded into the entry
that is there, or into a zero struct when the slice has to grow.  Returns the
decoded elements and the rest of the backing array. -/
def decodeElems : List JSON → List Asset → Option GoError →
    List Asset × List Asset × Option GoError
  | [], backing, saved => ([], backing, saved)
  | v :: vs, backing, saved =>
    let r := decodeAsset v (backing.headD ⟨""⟩) saved
    let rest := decodeElems vs backing.tail r.2
    (r.1 :: rest.1, rest.2.1, rest.2.2)

/-- A value decoded into the slice field `Assets`.  An array fills the slice
from index 0 and cuts it to the number of elements read; an empty array makes
a fresh empty slice; `null` makes the slice nil; anything else is a type
error. -/
def decodeSlice (v : JSON) (s : AssetSlice) (saved : Option GoError) :
    AssetSlice × Option GoError :=
  match v with
  | JSON.array [] => (⟨[], []⟩, saved)
  | JSON.array (x :: xs) =>
    let r := decodeElems (x :: xs) (s.elems ++ s.spare) saved
    (⟨r.1, r.2.1⟩, r.2.2)
  | JSON.null => (⟨[], []⟩, saved)
  | other => (s, saveError saved (GoError.jsonType other.describe))

/-- The member loop of `d.object` on the release struct: a key that matches
`assets` decodes into `Assets`, any other member is skipped. -/
def decodeReleaseMembers : List (String × JSON) → GithubRelease → Option GoError →
    GithubRelease × Option GoError
  | [], rel, saved => (rel, saved)
  | (k, v) :: ms, rel, saved =>
    if fieldMatches "assets" k then
      let r := decodeSlice v rel.Assets saved
      decodeReleaseMembers ms ⟨r.1⟩ r.2
    else decodeReleaseMembers ms rel saved

/-- A value decoded into the release struct. -/
def decodeRelease (v : JSON) (rel : GithubRelease) (saved : Option GoError) :
    GithubRelease × Option GoError :=
  match v with
  | JSON.object ms => decodeReleaseMembers ms rel saved
  | JSON.null => (rel, saved)
  | other => (rel, saveError saved (GoError.jsonType other.describe))

/-- `json.Unmarshal(data, &release)`: the release afterwards and the error. -/
def Unmarshal (data : String) (release : GithubRelease) :
    GithubRelease × Option GoError :=
  match parse data with
  | none => (release, some GoError.jsonInvalid)
  | some v => decodeRelease v release none

/-! ## `find.go` -/

/-- `fmt.Sprintf` for the verbs `find.go` uses: `%s` writes the next string
operand as it is, any other character of the format is copied. -/
def Sprintf : List Char → List String → String
  | [], _ => ""
  | '%' :: 's' :: rest, a :: args => a ++ Sprintf rest args
  | '%' :: 's' :: rest, [] => "%!s(MISSING)" ++ Sprintf rest []
  | c :: rest, args => String.singleton c ++ Sprintf rest args

/-- A `GithubAssetFinder` finds assets for the given Repo at the given tag. -/
structure GithubAssetFinder where
  Repo : String
  Tag : String
  deriving DecidableEq, Repr

/-- The `url` variable of `GithubAssetFinder.Find` (line 31). -/
def GithubAssetFinder.url (f : GithubAssetFinder) : String :=
  Sprintf "https://api.github.com/repos/%s/releases/%s".toList [f.Repo, f.Tag]

/-- The loop of lines 56 to 59: append every asset's `DownloadURL`. -/
def accumulate (assets : List Asset) : List String :=
  assets.foldl (fun acc a => acc ++ [a.DownloadURL]) []

/-- `(*GithubAssetFinder).Find`, run against the HTTP layer `get`. -/
def GithubAssetFinder.Find (f : GithubAssetFinder) (get : HTTPGet) : FindRun :=
  let url := f.url
  match get url with
  | Except.error err => ⟨[Call.get url], none, some (GoError.external err)⟩
  | Except.ok resp =>
    if resp.StatusCode ≠ StatusOK then
      ⟨[Call.get url, Call.close], none,
        some (GoError.errorf (Sprintf "%s (URL: %s)".toList [resp.Status, url]))⟩
    else
      match resp.Body.err with
      | some err =>
        ⟨[Call.get url, Call.readAll, Call.close], none, some (GoError.external err)⟩
      | none =>
        let r := Unmarshal resp.Body.data GithubRelease.zero
        match r.2 with
        | some err => ⟨[Call.get url, Call.readAll, Call.close], none, some err⟩
        | none =>
          ⟨[Call.get url, Call.readAll, Call.close],
            some (accumulate r.1.Assets.elems), none⟩

/-- A `DirectAssetFinder` returns the embedded URL directly as the only asset. -/
structure DirectAssetFinder where
  URL : String
  deriving DecidableEq, Repr

/-- `(*DirectAssetFinder).Find`; the HTTP layer is there but not called. -/
def DirectAssetFinder.Find (f : DirectAssetFinder) (_get : HTTPGet) : FindRun :=
  ⟨[], some [f.URL], none⟩

/-! ## Specification-side definitions -/

/-- The text `t` occurs in the text `s`. -/
def Contains (s t : String) : Prop := t.toList <:+: s.toList

/-- The answer of a stubbed HTTP layer: status 200 and a body read in full. -/
def okResponse (status body : String) : Response := ⟨status, 200, ⟨body, none⟩⟩

/-- A stubbed HTTP layer that answers every request with `resp`. -/
def stub (resp : Response) : HTTPGet := fun _ => Except.ok resp

/-- A stubbed HTTP layer on which every request fails with `e`. -/
def failing (e : ExternalError) : HTTPGet := fun _ => Except.error e

/-- The value is a JSON array. -/
def JSON.isArray : JSON → Bool
  | JSON.array _ => true
  | _ => false

/-- The value is the JSON `null`. -/
def JSON.isNull : JSON → Bool
  | JSON.null => true
  | _ => false

/-- `AddedMembers name xs ys`: the member list `ys` is `xs` with further
members put in, at any places, none of them under a key that the decoder
matches with the field name `name`; a member under such an unmatched key may
also have fields added anywhere inside its value (`inside`). -/
inductive AddedMembers (name : String) :
    List (String × JSON) → List (String × JSON) → Prop where
  | nil : AddedMembers name [] []
  | keep (m : String × JSON) {xs ys : List (String × JSON)} :
      AddedMembers name xs ys → AddedMembers name (m :: xs) (m :: ys)
  | add (k : String) (v : JSON) {xs ys : List (String × JSON)} :
      fieldMatches name k = false → AddedMembers name xs ys →
      AddedMembers name xs ((k, v) :: ys)
  | inside (k : String) (v w : JSON) {xs ys : List (String × JSON)} :
      fieldMatches name k = false → AddedMembers name xs ys →
      AddedMembers name ((k, v) :: xs) ((k, w) :: ys)

/-- An element of the `assets` array and the same element with further
members, none matched with `browser_download_url`. -/
inductive RecordExt : JSON → JSON → Prop where
  | same (v : JSON) : RecordExt v v
  | object {xs ys : List (String × JSON)} :
      AddedMembers "browser_download_url" xs ys →
      RecordExt (JSON.object xs) (JSON.object ys)

/-- The value of a top-level member and the same value with further members
in the records of the array. -/
inductive ValueExt : JSON → JSON → Prop where
  | same (v : JSON) : ValueExt v v
  | array {xs ys : List JSON} :
      List.Forall₂ RecordExt xs ys → ValueExt (JSON.array xs) (JSON.array ys)

/-- `ReleaseExt xs ys`: the members `ys` of a release object are the members
`xs` with further fields put in: at the top level under keys not matched with
`assets`, inside asset records under keys not matched with
`browser_download_url`, and anywhere inside the values of such unmatched
members. -/
inductive ReleaseExt : List (String × JSON) → List (String × JSON) → Prop where
  | nil : ReleaseExt [] []
  | keep (k : String) {v w : JSON} {xs ys : List (String × JSON)} :
      ValueExt v w → ReleaseExt xs ys → ReleaseExt ((k, v) :: xs) ((k, w) :: ys)
  | add (k : String) (v : JSON) {xs ys : List (String × JSON)} :
      fieldMatches "assets" k = false → ReleaseExt xs ys →
      ReleaseExt xs ((k, v) :: ys)
  | inside (k : String) (v w : JSON) {xs ys : List (String × JSON)} :
      fieldMatches "assets" k = false → ReleaseExt xs ys →
      ReleaseExt ((k, v) :: xs) ((k, w) :: ys)

/-- The download URL among the members of a record, in the words of the
claim: the value of the last member named `browser_download_url` (as the
decoder matches names), and `dflt` when there is no such member. -/
def lastURL (ms : List (String × JSON)) (dflt : String) : String :=
  match (ms.filter fun m => fieldMatches "browser_download_url" m.1).getLast? with
  | some (_, JSON.string s) => s
  | _ => dflt

/-- The download URL of a record; the empty string when it has none. -/
def recordURL : JSON → String
  | JSON.object ms => lastURL ms ""
  | _ => ""

/-- An asset record: a JSON object in which every member named
`browser_download_url` (as the decoder matches names) holds a string. -/
def IsAssetRecord (v : JSON) : Prop :=
  ∃ ms, v = JSON.object ms ∧
    ∀ k w, (k, w) ∈ ms → fieldMatches "browser_download_url" k = true →
      ∃ s, w = JSON.string s

/-- How the saved error may change while decoding goes on: an error that is
saved stays, and a new one is an error of `json.Unmarshal`. -/
def Later (before after : Option GoError) : Prop :=
  (before.isSome = true → after = before) ∧
  (before = none → ∀ e, after = some e → e.isDecode = true)

/-! ## The paths through `GithubAssetFinder.Find` -/

theorem accumulate_from (assets : List Asset) (init : List String) :
    assets.foldl (fun acc a => acc ++ [a.DownloadURL]) init
      = init ++ assets.map Asset.DownloadURL := by
  induction assets generalizing init with
  | nil => simp
  | cons a rest ih => simp [ih]

theorem accumulate_eq_map (assets : List Asset) :
    accumulate assets = assets.map Asset.DownloadURL := by
  simp [accumulate, accumulate_from]

theorem Find_transport (f : GithubAssetFinder) (get : HTTPGet) (e : ExternalError)
    (hget : get f.url = Except.error e) :
    f.Find get = ⟨[Call.get f.url], none, some (GoError.external e)⟩ := by
  simp [GithubAssetFinder.Find, hget]

theorem Find_status (f : GithubAssetFinder) (get : HTTPGet) (resp : Response)
    (hget : get f.url = Except.ok resp) (hs : resp.StatusCode ≠ StatusOK) :
    f.Find get = ⟨[Call.get f.url, Call.close], none,
      some (GoError.errorf (Sprintf "%s (URL: %s)".toList [resp.Status, f.url]))⟩ := by
  simp [GithubAssetFinder.Find, hget, hs]

theorem Find_read_error (f : GithubAssetFinder) (get : HTTPGet) (resp : Response)
    (e : ExternalError)
    (hget : get f.url = Except.ok resp) (hs : resp.StatusCode = StatusOK)
    (hb : resp.Body.err = some e) :
    f.Find get = ⟨[Call.get f.url, Call.readAll, Call.close], none,
      some (GoError.external e)⟩ := by
  simp [GithubAssetFinder.Find, hget, hs, hb]

theorem Find_decode_error (f : GithubAssetFinder) (get : HTTPGet) (resp : Response)
    (rel : GithubRelease) (e : GoError)
    (hget : get f.url = Except.ok resp) (hs : resp.StatusCode = StatusOK)
    (hb : resp.Body.err = none)
    (hu : Unmarshal resp.Body.data GithubRelease.zero = (rel, some e)) :
    f.Find get = ⟨[Call.get f.url, Call.readAll, Call.close], none, some e⟩ := by
  simp [GithubAssetFinder.Find, hget, hs, hb, hu]

theorem Find_decoded (f : GithubAssetFinder) (get : HTTPGet) (resp : Response)
    (rel : GithubRelease)
    (hget : get f.url = Except.ok resp) (hs : resp.StatusCode = StatusOK)
    (hb : resp.Body.err = none)
    (hu : Unmarshal resp.Body.data GithubRelease.zero = (rel, none)) :
    f.Find get = ⟨[Call.get f.url, Call.readAll, Call.close],
      some (rel.Assets.elems.map Asset.DownloadURL), none⟩ := by
  simp [GithubAssetFinder.Find, hget, hs, hb, hu, accumulate_eq_map]

theorem url_eq (r t : String) :
    GithubAssetFinder.url ⟨r, t⟩
      = "https://api.github.com/repos/" ++ r ++ "/releases/" ++ t := by
  simp [GithubAssetFinder.url, Sprintf, String.ext_iff]

theorem errorf_eq (status url : String) :
    Sprintf "%s (URL: %s)".toList [status, url] = status ++ " (URL: " ++ url ++ ")" := by
  simp [Sprintf, String.ext_iff]

theorem contains_left (a b : String) : Contains (a ++ b) a :=
  ⟨[], b.toList, by simp⟩

theorem contains_inner (a b c d : String) : Contains (a ++ b ++ c ++ d) c :=
  ⟨(a ++ b).toList, d.toList, by simp⟩

/-! ## The saved error of the decoder -/

theorem later_refl (sv : Option GoError) : Later sv sv :=
  ⟨fun _ => rfl, fun h e he => by rw [h] at he; cases he⟩

theorem later_trans {a b c : Option GoError} (hab : Later a b) (hbc : Later b c) :
    Later a c := by
  constructor
  · intro ha
    have hb : b = a := hab.1 ha
    rw [← hb]
    exact hbc.1 (by rw [hb]; exact ha)
  · intro ha e he
    cases hb : b with
    | none => exact hbc.2 hb e he
    | some x =>
      have hcb : c = b := hbc.1 (by rw [hb]; rfl)
      exact hab.2 ha e (by rw [← hcb, he])

theorem later_saveError (sv : Option GoError) (value : String) :
    Later sv (saveError sv (GoError.jsonType value)) := by
  cases sv with
  | none =>
    refine ⟨fun h => (by cases h), fun _ e he => ?_⟩
    simp [saveError] at he
    rw [← he]
    rfl
  | some x => exact ⟨fun _ => rfl, fun h => by cases h⟩

theorem saveError_isSome (sv : Option GoError) (e : GoError) :
    (saveError sv e).isSome = true := by
  cases sv <;> rfl

theorem decodeString_later (v : JSON) (cur : String) (sv : Option GoError) :
    Later sv (decodeString v cur sv).2 := by
  cases v <;> first | exact later_refl sv | exact later_saveError sv _

theorem decodeAssetMembers_later (ms : List (String × JSON)) (a : Asset)
    (sv : Option GoError) : Later sv (decodeAssetMembers ms a sv).2 := by
  induction ms generalizing a sv with
  | nil => exact later_refl sv
  | cons m rest ih =>
    obtain ⟨k, v⟩ := m
    unfold decodeAssetMembers
    split
    · exact later_trans (decodeString_later v a.DownloadURL sv) (ih _ _)
    · exact ih a sv

theorem decodeAsset_later (v : JSON) (a : Asset) (sv : Option GoError) :
    Later sv (decodeAsset v a sv).2 := by
  cases v <;>
    first
    | exact later_refl sv
    | exact later_saveError sv _
    | exact decodeAssetMembers_later _ a sv

theorem decodeElems_later (vs : List JSON) (backing : List Asset)
    (sv : Option GoError) : Later sv (decodeElems vs backing sv).2.2 := by
  induction vs generalizing backing sv with
  | nil => exact later_refl sv
  | cons v rest ih =>
    exact later_trans (decodeAsset_later v _ sv) (ih _ _)

theorem decodeSlice_later (v : JSON) (s : AssetSlice) (sv : Option GoError) :
    Later sv (decodeSlice v s sv).2 := by
  cases v with
  | array elems =>
    cases elems with
    | nil => exact later_refl sv
    | cons x xs => exact decodeElems_later (x :: xs) _ sv
  | null => exact later_refl sv
  | bool b => exact later_saveError sv _
  | number lit => exact later_saveError sv _
  | string str => exact later_saveError sv _
  | object ms => exact later_saveError sv _

theorem decodeReleaseMembers_later (ms : List (String × JSON)) (rel : GithubRelease)
    (sv : Option GoError) : Later sv (decodeReleaseMembers ms rel sv).2 := by
  induction ms generalizing rel sv with
  | nil => exact later_refl sv
  | cons m rest ih =>
    obtain ⟨k, v⟩ := m
    unfold decodeReleaseMembers
    split
    · exact later_trans (decodeSlice_later v rel.Assets sv) (ih _ _)
    · exact ih rel sv

theorem decodeRelease_later (v : JSON) (rel : GithubRelease) (sv : Option GoError) :
    Later sv (decodeRelease v rel sv).2 := by
  cases v <;>
    first
    | exact later_refl sv
    | exact later_saveError sv _
    | exact decodeReleaseMembers_later _ rel sv

theorem Unmarshal_error_isDecode (data : String) (rel0 rel : GithubRelease) (e : GoError)
    (hu : Unmarshal data rel0 = (rel, some e)) : e.isDecode = true := by
  unfold Unmarshal at hu
  cases hp : parse data with
  | none =>
    rw [hp] at hu
    simp at hu
    rw [← hu.2]
    rfl
  | some v =>
    rw [hp] at hu
    have h := (decodeRelease_later v rel0 none).2 rfl e
    have hu2 : decodeRelease v rel0 none = (rel, some e) := hu
    rw [hu2] at h
    exact h rfl

/-- What a run of `Find` can be: one of the five exits of the function. -/
theorem Find_exits (f : GithubAssetFinder) (get : HTTPGet) :
    (∃ e, f.Find get = ⟨[Call.get f.url], none, some (GoError.external e)⟩)
    ∨ (∃ msg, f.Find get = ⟨[Call.get f.url, Call.close], none, some (GoError.errorf msg)⟩)
    ∨ (∃ e, f.Find get
        = ⟨[Call.get f.url, Call.readAll, Call.close], none, some e⟩)
    ∨ (∃ urls, f.Find get
        = ⟨[Call.get f.url, Call.readAll, Call.close], some urls, none⟩) := by
  cases hget : get f.url with
  | error e => exact Or.inl ⟨e, Find_transport f get e hget⟩
  | ok resp =>
    by_cases hs : resp.StatusCode = StatusOK
    · cases hb : resp.Body.err with
      | some e =>
        exact Or.inr (Or.inr (Or.inl ⟨_, Find_read_error f get resp e hget hs hb⟩))
      | none =>
        cases hu : Unmarshal resp.Body.data GithubRelease.zero with
        | mk rel err =>
          cases err with
          | none =>
            exact Or.inr (Or.inr (Or.inr ⟨_, Find_decoded f get resp rel hget hs hb hu⟩))
          | some e =>
            exact Or.inr (Or.inr (Or.inl ⟨_, Find_decode_error f get resp rel e hget hs hb hu⟩))
    · exact Or.inr (Or.inl ⟨_, Find_status f get resp hget hs⟩)

theorem unmarshal_two_assets :
    Unmarshal
      "\x7b\"assets\":[\x7b\"browser_download_url\":\"https://x/a.tar.gz\"\x7d,\x7b\"browser_download_url\":\"https://x/b.zip\"\x7d]\x7d"
      GithubRelease.zero
      = (⟨⟨[⟨"https://x/a.tar.gz"⟩, ⟨"https://x/b.zip"⟩], []⟩⟩, none) := by
  decide

theorem unmarshal_no_assets :
    Unmarshal "\x7b\"assets\":[]\x7d" GithubRelease.zero = (⟨⟨[], []⟩⟩, none) := by
  decide

/-! ## A member of the wrong shape -/

theorem later_isSome {a b : Option GoError} (h : Later a b) (ha : a.isSome = true) :
    b.isSome = true := by
  rw [h.1 ha]
  exact ha

theorem decodeSlice_wrong_shape (v : JSON) (s : AssetSlice) (sv : Option GoError)
    (harr : v.isArray = false) (hnull : v.isNull = false) :
    (decodeSlice v s sv).2.isSome = true := by
  cases v with
  | array elems => simp [JSON.isArray] at harr
  | null => simp [JSON.isNull] at hnull
  | bool b => exact saveError_isSome sv _
  | number lit => exact saveError_isSome sv _
  | string str => exact saveError_isSome sv _
  | object ms => exact saveError_isSome sv _

theorem decodeReleaseMembers_wrong_shape (ms : List (String × JSON)) (k : String) (v : JSON)
    (hmem : (k, v) ∈ ms) (hk : fieldMatches "assets" k = true)
    (harr : v.isArray = false) (hnull : v.isNull = false)
    (rel : GithubRelease) (sv : Option GoError) :
    (decodeReleaseMembers ms rel sv).2.isSome = true := by
  induction ms generalizing rel sv with
  | nil => cases hmem
  | cons m rest ih =>
    obtain ⟨k1, v1⟩ := m
    rcases List.mem_cons.mp hmem with heq | htail
    · have hk1 : k1 = k := (congrArg Prod.fst heq).symm
      have hv1 : v1 = v := (congrArg Prod.snd heq).symm
      subst hk1
      subst hv1
      unfold decodeReleaseMembers
      rw [if_pos hk]
      exact later_isSome (decodeReleaseMembers_later rest _ _)
        (decodeSlice_wrong_shape v1 rel.Assets sv harr hnull)
    · unfold decodeReleaseMembers
      split
      · exact ih htail _ _
      · exact ih htail _ _

/-! ## Members the decoder skips -/

theorem decodeAssetMembers_added {xs ys : List (String × JSON)}
    (h : AddedMembers "browser_download_url" xs ys) (a : Asset) (sv : Option GoError) :
    decodeAssetMembers ys a sv = decodeAssetMembers xs a sv := by
  induction h generalizing a sv with
  | nil => rfl
  | keep m _ ih =>
    obtain ⟨k, v⟩ := m
    unfold decodeAssetMembers
    split
    · exact ih _ _
    · exact ih _ _
  | add k v hk _ ih =>
    rw [decodeAssetMembers, if_neg (by rw [hk]; simp)]
    exact ih a sv
  | inside k v w hk _ ih =>
    rw [decodeAssetMembers, decodeAssetMembers, if_neg (by rw [hk]; simp),
      if_neg (by rw [hk]; simp)]
    exact ih a sv

theorem decodeAsset_ext {v w : JSON} (h : RecordExt v w) (a : Asset)
    (sv : Option GoError) : decodeAsset w a sv = decodeAsset v a sv := by
  cases h with
  | same => rfl
  | object hadd => exact decodeAssetMembers_added hadd a sv

theorem decodeElems_ext {xs ys : List JSON} (h : List.Forall₂ RecordExt xs ys)
    (backing : List Asset) (sv : Option GoError) :
    decodeElems ys backing sv = decodeElems xs backing sv := by
  induction h generalizing backing sv with
  | nil => rfl
  | cons hd _ ih =>
    simp only [decodeElems, decodeAsset_ext hd, ih]

theorem decodeSlice_ext {v w : JSON} (h : ValueExt v w) (s : AssetSlice)
    (sv : Option GoError) : decodeSlice w s sv = decodeSlice v s sv := by
  cases h with
  | same => rfl
  | array hall =>
    cases hall with
    | nil => rfl
    | cons hd tl =>
      simp only [decodeSlice, decodeElems_ext (List.Forall₂.cons hd tl)]

theorem decodeReleaseMembers_ext {xs ys : List (String × JSON)} (h : ReleaseExt xs ys)
    (rel : GithubRelease) (sv : Option GoError) :
    decodeReleaseMembers ys rel sv = decodeReleaseMembers xs rel sv := by
  induction h generalizing rel sv with
  | nil => rfl
  | keep k hv _ ih =>
    unfold decodeReleaseMembers
    split
    · rw [decodeSlice_ext hv, ih]
    · exact ih _ _
  | add k v hk _ ih =>
    rw [decodeReleaseMembers, if_neg (by rw [hk]; simp)]
    exact ih rel sv
  | inside k v w hk _ ih =>
    rw [decodeReleaseMembers, decodeReleaseMembers, if_neg (by rw [hk]; simp),
      if_neg (by rw [hk]; simp)]
    exact ih rel sv

theorem Unmarshal_object (data : String) (ms : List (String × JSON))
    (hp : parse data = some (JSON.object ms)) (rel : GithubRelease) :
    Unmarshal data rel = decodeReleaseMembers ms rel none := by
  unfold Unmarshal
  rw [hp]
  rfl

/-! ## Records with and without a download URL -/

theorem lastURL_skip (k : String) (v : JSON) (rest : List (String × JSON)) (dflt : String)
    (hk : fieldMatches "browser_download_url" k = false) :
    lastURL ((k, v) :: rest) dflt = lastURL rest dflt := by
  simp [lastURL, List.filter, hk]

theorem lastURL_store (k s : String) (rest : List (String × JSON)) (dflt : String)
    (hk : fieldMatches "browser_download_url" k = true)
    (hrest : ∀ k1 w, (k1, w) ∈ rest → fieldMatches "browser_download_url" k1 = true →
      ∃ s1, w = JSON.string s1) :
    lastURL ((k, JSON.string s) :: rest) dflt = lastURL rest s := by
  unfold lastURL
  rw [List.filter_cons_of_pos (by simpa using hk)]
  cases hf : rest.filter (fun m => fieldMatches "browser_download_url" m.1) with
  | nil => simp
  | cons y l =>
    rw [List.getLast?_cons_cons]
    have hne : (y :: l) ≠ [] := by simp
    have hlast : (y :: l).getLast? = some ((y :: l).getLast hne) :=
      List.getLast?_eq_getLast _ hne
    have hin : (y :: l).getLast hne ∈ rest.filter
        (fun m => fieldMatches "browser_download_url" m.1) := by
      rw [hf]
      exact List.getLast_mem hne
    obtain ⟨hmem, hp⟩ := List.mem_filter.mp hin
    obtain ⟨s1, hs1⟩ := hrest _ _ hmem (by simpa using hp)
    rw [hlast]
    have hz : (y :: l).getLast hne = (((y :: l).getLast hne).1, JSON.string s1) := by
      rw [← hs1]
    rw [hz]

theorem decodeAssetMembers_record (ms : List (String × JSON)) (cur : String)
    (h : ∀ k w, (k, w) ∈ ms → fieldMatches "browser_download_url" k = true →
      ∃ s, w = JSON.string s) :
    decodeAssetMembers ms ⟨cur⟩ none = (⟨lastURL ms cur⟩, none) := by
  induction ms generalizing cur with
  | nil => rfl
  | cons m rest ih =>
    obtain ⟨k, v⟩ := m
    have hrest : ∀ k1 w, (k1, w) ∈ rest → fieldMatches "browser_download_url" k1 = true →
        ∃ s1, w = JSON.string s1 :=
      fun k1 w hm => h k1 w (List.mem_cons_of_mem _ hm)
    cases hk : fieldMatches "browser_download_url" k with
    | true =>
      obtain ⟨s, hs⟩ := h k v (List.mem_cons_self _ _) hk
      subst hs
      rw [decodeAssetMembers, if_pos hk, lastURL_store k s rest cur hk hrest]
      exact ih s hrest
    | false =>
      rw [decodeAssetMembers, if_neg (by rw [hk]; simp), lastURL_skip k v rest cur hk]
      exact ih cur hrest

theorem decodeElems_records (records : List JSON)
    (h : ∀ r ∈ records, IsAssetRecord r) :
    decodeElems records [] none
      = (records.map fun r => (⟨recordURL r⟩ : Asset), [], none) := by
  induction records with
  | nil => rfl
  | cons r rest ih =>
    obtain ⟨ms, hr, hms⟩ := h r (List.mem_cons_self _ _)
    subst hr
    have ihr := ih fun x hx => h x (List.mem_cons_of_mem _ hx)
    have hd : decodeAsset (JSON.object ms) ⟨""⟩ none = (⟨lastURL ms ""⟩, none) :=
      decodeAssetMembers_record ms "" hms
    simp only [decodeElems, List.headD, List.tail, hd, ihr, List.map, recordURL]

theorem decodeSlice_records (records : List JSON)
    (h : ∀ r ∈ records, IsAssetRecord r) :
    decodeSlice (JSON.array records) ⟨[], []⟩ none
      = (⟨records.map fun r => (⟨recordURL r⟩ : Asset), []⟩, none) := by
  cases records with
  | nil => rfl
  | cons r rest =>
    unfold decodeSlice
    simp only [List.append_nil]
    rw [decodeElems_records (r :: rest) h]

theorem decodeReleaseMembers_skip (ms : List (String × JSON))
    (h : ∀ m ∈ ms, fieldMatches "assets" m.1 = false)
    (rest : List (String × JSON)) (rel : GithubRelease) (sv : Option GoError) :
    decodeReleaseMembers (ms ++ rest) rel sv = decodeReleaseMembers rest rel sv := by
  induction ms with
  | nil => rfl
  | cons m tl ih =>
    obtain ⟨k, v⟩ := m
    have hk : fieldMatches "assets" k = false := h (k, v) (List.mem_cons_self _ _)
    rw [List.cons_append, decodeReleaseMembers, if_neg (by rw [hk]; simp)]
    exact ih fun x hx => h x (List.mem_cons_of_mem _ hx)

/-! ## The claims -/

/-- C1: for every HTTP 200 response whose body is read in full and decodes
without error to a release with asset records `a_1..a_n`, `Find` returns no
error and exactly the sequence of their download URLs, same length and same
order; the two bodies of the specification's examples yield
`["https://x/a.tar.gz", "https://x/b.zip"]` and the empty sequence. -/
theorem Find_returns_download_urls :
    (∀ (f : GithubAssetFinder) (get : HTTPGet) (resp : Response) (rel : GithubRelease),
      get f.url = Except.ok resp → resp.StatusCode = StatusOK →
      resp.Body.err = none →
      Unmarshal resp.Body.data GithubRelease.zero = (rel, none) →
      (f.Find get).err = none ∧
      (f.Find get).urls = some (rel.Assets.elems.map Asset.DownloadURL) ∧
      (rel.Assets.elems.map Asset.DownloadURL).length = rel.Assets.elems.length)
    ∧ (∀ (f : GithubAssetFinder) (get : HTTPGet) (status : String),
      get f.url = Except.ok (okResponse status
        "\x7b\"assets\":[\x7b\"browser_download_url\":\"https://x/a.tar.gz\"\x7d,\x7b\"browser_download_url\":\"https://x/b.zip\"\x7d]\x7d") →
      (f.Find get).err = none ∧
      (f.Find get).urls = some ["https://x/a.tar.gz", "https://x/b.zip"])
    ∧ (∀ (f : GithubAssetFinder) (get : HTTPGet) (status : String),
      get f.url = Except.ok (okResponse status "\x7b\"assets\":[]\x7d") →
      (f.Find get).err = none ∧ (f.Find get).urls = some []) := by
  refine ⟨?_, ?_, ?_⟩
  · intro f get resp rel hget hs hb hu
    rw [Find_decoded f get resp rel hget hs hb hu]
    simp
  · intro f get status hget
    rw [Find_decoded f get _ _ hget rfl rfl unmarshal_two_assets]
    simp
  · intro f get status hget
    rw [Find_decoded f get _ _ hget rfl rfl unmarshal_no_assets]
    simp

/-- Witness of C1: a release with one asset, served by a stub. -/
theorem Find_returns_download_urls_witness :
    (GithubAssetFinder.Find ⟨"foo/bar", "latest"⟩
      (stub (okResponse "200 OK" "\x7b\"assets\":[\x7b\"browser_download_url\":\"u\"\x7d]\x7d"))).err = none
    ∧ (GithubAssetFinder.Find ⟨"foo/bar", "latest"⟩
      (stub (okResponse "200 OK" "\x7b\"assets\":[\x7b\"browser_download_url\":\"u\"\x7d]\x7d"))).urls
        = some ((([⟨"u"⟩] : List Asset)).map Asset.DownloadURL)
    ∧ ((([⟨"u"⟩] : List Asset)).map Asset.DownloadURL).length = ([⟨"u"⟩] : List Asset).length :=
  Find_returns_download_urls.1 ⟨"foo/bar", "latest"⟩
    (stub (okResponse "200 OK" "\x7b\"assets\":[\x7b\"browser_download_url\":\"u\"\x7d]\x7d"))
    (okResponse "200 OK" "\x7b\"assets\":[\x7b\"browser_download_url\":\"u\"\x7d]\x7d")
    ⟨⟨[⟨"u"⟩], []⟩⟩ rfl rfl rfl (by decide)

/-- C2: for every repository `r` and tag `t` the URL that `Find` builds and
requests is exactly `"https://api.github.com/repos/" ++ r ++ "/releases/" ++ t`,
both inputs verbatim; it is the argument of the run's one call of `http.Get`;
the two example URLs of the specification come out as written. -/
theorem request_url_verbatim (r t : String) (get : HTTPGet) :
    GithubAssetFinder.url ⟨r, t⟩
      = "https://api.github.com/repos/" ++ r ++ "/releases/" ++ t
    ∧ (∃ rest, (GithubAssetFinder.Find ⟨r, t⟩ get).calls
        = Call.get ("https://api.github.com/repos/" ++ r ++ "/releases/" ++ t) :: rest
        ∧ ∀ u, Call.get u ∉ rest)
    ∧ GithubAssetFinder.url ⟨"foo/bar", "latest"⟩
      = "https://api.github.com/repos/foo/bar/releases/latest"
    ∧ GithubAssetFinder.url ⟨"foo/bar", "tags/v1.2.3"⟩
      = "https://api.github.com/repos/foo/bar/releases/tags/v1.2.3" := by
  refine ⟨url_eq r t, ?_, by decide, by decide⟩
  rw [← url_eq r t]
  rcases Find_exits ⟨r, t⟩ get with ⟨e, h⟩ | ⟨m, h⟩ | ⟨e, h⟩ | ⟨u, h⟩
  · exact ⟨[], by rw [h], by simp⟩
  · exact ⟨[Call.close], by rw [h], by simp⟩
  · exact ⟨[Call.readAll, Call.close], by rw [h], by simp⟩
  · exact ⟨[Call.readAll, Call.close], by rw [h], by simp⟩

/-- C3: a response obtained without transport failure whose status code is
not 200 makes `Find` return no sequence and the error built on line 40, whose
message is the status text, then ` (URL: `, the request URL and `)`, so it
contains both the status text and the exact request URL; a response with
status 200 never produces an error of that kind. -/
theorem non_200_is_API_error (f : GithubAssetFinder) (get : HTTPGet) (resp : Response)
    (hget : get f.url = Except.ok resp) :
    (resp.StatusCode ≠ StatusOK →
      f.Find get = ⟨[Call.get f.url, Call.close], none,
        some (GoError.errorf (resp.Status ++ " (URL: " ++ f.url ++ ")"))⟩
      ∧ Contains (resp.Status ++ " (URL: " ++ f.url ++ ")") resp.Status
      ∧ Contains (resp.Status ++ " (URL: " ++ f.url ++ ")") f.url)
    ∧ (resp.StatusCode = StatusOK →
      ∀ msg, (f.Find get).err ≠ some (GoError.errorf msg)) := by
  constructor
  · intro hs
    refine ⟨?_, ?_, contains_inner _ _ _ _⟩
    · rw [Find_status f get resp hget hs, errorf_eq]
    · have h := contains_left resp.Status (" (URL: " ++ f.url ++ ")")
      simpa [String.append_assoc] using h
  · intro hs msg
    cases hb : resp.Body.err with
    | some e => rw [Find_read_error f get resp e hget hs hb]; simp
    | none =>
      cases hu : Unmarshal resp.Body.data GithubRelease.zero with
      | mk rel err =>
        cases err with
        | none => rw [Find_decoded f get resp rel hget hs hb hu]; simp
        | some e =>
          rw [Find_decode_error f get resp rel e hget hs hb hu]
          have hdec : e.isDecode = true := Unmarshal_error_isDecode _ _ _ _ hu
          intro h
          simp at h
          subst h
          simp [GoError.isDecode] at hdec

/-- Witness of C3: the stub answers `404 Not Found`, and, for the converse, an
empty release with status 200. -/
theorem non_200_is_API_error_witness :
    (GithubAssetFinder.Find ⟨"foo/bar", "latest"⟩ (stub ⟨"404 Not Found", 404, ⟨"", none⟩⟩)
        = ⟨[Call.get (GithubAssetFinder.url ⟨"foo/bar", "latest"⟩), Call.close], none,
          some (GoError.errorf ("404 Not Found" ++ " (URL: "
            ++ GithubAssetFinder.url ⟨"foo/bar", "latest"⟩ ++ ")"))⟩
      ∧ Contains ("404 Not Found" ++ " (URL: "
            ++ GithubAssetFinder.url ⟨"foo/bar", "latest"⟩ ++ ")") "404 Not Found"
      ∧ Contains ("404 Not Found" ++ " (URL: "
            ++ GithubAssetFinder.url ⟨"foo/bar", "latest"⟩ ++ ")")
          (GithubAssetFinder.url ⟨"foo/bar", "latest"⟩))
    ∧ ∀ msg, (GithubAssetFinder.Find ⟨"foo/bar", "latest"⟩
        (stub (okResponse "200 OK" "\x7b\"assets\":[]\x7d"))).err ≠ some (GoError.errorf msg) :=
  ⟨(non_200_is_API_error ⟨"foo/bar", "latest"⟩ (stub ⟨"404 Not Found", 404, ⟨"", none⟩⟩)
      ⟨"404 Not Found", 404, ⟨"", none⟩⟩ rfl).1 (by decide),
   (non_200_is_API_error ⟨"foo/bar", "latest"⟩
      (stub (okResponse "200 OK" "\x7b\"assets\":[]\x7d"))
      (okResponse "200 OK" "\x7b\"assets\":[]\x7d") rfl).2 rfl⟩

/-- C4: for every string `u`, the empty string and strings that are no URL
included, `DirectAssetFinder{URL: u}.Find` returns exactly `[u]` and no error,
whatever the HTTP layer is, and makes no call on it. -/
theorem direct_finder_returns_url (u : String) (get : HTTPGet) :
    (DirectAssetFinder.Find ⟨u⟩ get).urls = some [u]
    ∧ (DirectAssetFinder.Find ⟨u⟩ get).err = none
    ∧ (DirectAssetFinder.Find ⟨u⟩ get).calls = []
    ∧ (DirectAssetFinder.Find ⟨""⟩ get).urls = some [""]
    ∧ (DirectAssetFinder.Find ⟨"not a url"⟩ get).urls = some ["not a url"] :=
  ⟨rfl, rfl, rfl, rfl, rfl⟩

/-- C8: when `http.Get` reports the failure `e`, `Find` returns the nil slice
and exactly the error `e`; the request is the run's only call: nothing is read,
closed or decoded. -/
theorem transport_failure_returned_as_is (f : GithubAssetFinder) (get : HTTPGet)
    (e : ExternalError) (hget : get f.url = Except.error e) :
    f.Find get = ⟨[Call.get f.url], none, some (GoError.external e)⟩ :=
  Find_transport f get e hget

/-- Witness of C8: every request fails with `dial tcp: connection refused`. -/
theorem transport_failure_returned_as_is_witness :
    GithubAssetFinder.Find ⟨"foo/bar", "latest"⟩ (failing ⟨"dial tcp: connection refused"⟩)
      = ⟨[Call.get (GithubAssetFinder.url ⟨"foo/bar", "latest"⟩)], none,
          some (GoError.external ⟨"dial tcp: connection refused"⟩)⟩ :=
  transport_failure_returned_as_is ⟨"foo/bar", "latest"⟩
    (failing ⟨"dial tcp: connection refused"⟩) ⟨"dial tcp: connection refused"⟩ rfl

/-- C9: whatever the HTTP layer answers, a run of `Find` that returns a non-nil
error returns the nil slice, and a run that returns a slice returns the nil
error. -/
theorem no_result_next_to_an_error (f : GithubAssetFinder) (get : HTTPGet) :
    ((f.Find get).err ≠ none → (f.Find get).urls = none)
    ∧ ((f.Find get).urls ≠ none → (f.Find get).err = none) := by
  rcases Find_exits f get with ⟨e, h⟩ | ⟨m, h⟩ | ⟨e, h⟩ | ⟨u, h⟩ <;> rw [h] <;> simp

/-- Witness of C9: a body that stops in the middle of the second asset yields
the error and no URL; a complete body yields the URLs and no error. -/
theorem no_result_next_to_an_error_witness :
    (GithubAssetFinder.Find ⟨"foo/bar", "latest"⟩
      (stub (okResponse "200 OK"
        "\x7b\"assets\":[\x7b\"browser_download_url\":\"u\"\x7d,\x7b\"browser"))).urls = none
    ∧ (GithubAssetFinder.Find ⟨"foo/bar", "latest"⟩
      (stub (okResponse "200 OK"
        "\x7b\"assets\":[\x7b\"browser_download_url\":\"u\"\x7d]\x7d"))).err = none :=
  ⟨(no_result_next_to_an_error ⟨"foo/bar", "latest"⟩ _).1 (by decide),
   (no_result_next_to_an_error ⟨"foo/bar", "latest"⟩ _).2 (by decide)⟩

/-- C10, evaluated: a tag given in the documented form `tag/<t>` is requested
at `.../releases/tag/<t>`, which for no `r` and `t` is the release-by-tag path
`.../releases/tags/<t>` (for `foo/bar` and `tag/v1.2.3` the request goes to
`.../repos/foo/bar/releases/tag/v1.2.3`); the tag `latest` is requested at
`.../releases/latest`. -/
theorem documented_tag_form_url (r t : String) :
    GithubAssetFinder.url ⟨r, "tag/" ++ t⟩
      = "https://api.github.com/repos/" ++ r ++ "/releases/tag/" ++ t
    ∧ GithubAssetFinder.url ⟨r, "tag/" ++ t⟩
      ≠ "https://api.github.com/repos/" ++ r ++ "/releases/tags/" ++ t
    ∧ GithubAssetFinder.url ⟨"foo/bar", "tag/v1.2.3"⟩
      = "https://api.github.com/repos/foo/bar/releases/tag/v1.2.3"
    ∧ (GithubAssetFinder.Find ⟨"foo/bar", "tag/v1.2.3"⟩
        (stub ⟨"404 Not Found", 404, ⟨"", none⟩⟩)).calls
      = [Call.get "https://api.github.com/repos/foo/bar/releases/tag/v1.2.3", Call.close]
    ∧ GithubAssetFinder.url ⟨r, "latest"⟩
      = "https://api.github.com/repos/" ++ r ++ "/releases/latest" := by
  refine ⟨?_, ?_, by decide, by decide, ?_⟩
  · rw [url_eq]
    simp [String.ext_iff]
  · rw [url_eq]
    intro h
    have h2 := congrArg String.toList h
    simp at h2
  · rw [url_eq]
    simp [String.ext_iff]


/-- C5 as stated fails: in the body `{"assets":null}` the `assets` field is a
JSON value that is not an array, and `Find` returns the empty sequence and no
error. -/
theorem null_assets_is_accepted :
    parse "\x7b\"assets\":null\x7d" = some (JSON.object [("assets", JSON.null)])
    ∧ JSON.null.isArray = false
    ∧ GithubAssetFinder.Find ⟨"foo/bar", "latest"⟩
        (stub (okResponse "200 OK" "\x7b\"assets\":null\x7d"))
      = ⟨[Call.get "https://api.github.com/repos/foo/bar/releases/latest",
          Call.readAll, Call.close], some [], none⟩ :=
  ⟨rfl, rfl, by decide⟩

/-- C5, amended: for every HTTP 200 response, read in full, whose body is not
a JSON text, or is a JSON object with a member that the decoder matches with
`assets` and whose value is neither an array nor `null`, `Find` returns no
sequence and an error of `json.Unmarshal`. -/
theorem undecodable_body_is_decode_error (f : GithubAssetFinder) (get : HTTPGet)
    (resp : Response)
    (hget : get f.url = Except.ok resp) (hs : resp.StatusCode = StatusOK)
    (hb : resp.Body.err = none)
    (hbad : parse resp.Body.data = none ∨
      ∃ ms k v, parse resp.Body.data = some (JSON.object ms) ∧ (k, v) ∈ ms ∧
        fieldMatches "assets" k = true ∧ v.isArray = false ∧ v.isNull = false) :
    (f.Find get).urls = none ∧
    ∃ e, (f.Find get).err = some e ∧ e.isDecode = true := by
  have herr : ∃ rel e, Unmarshal resp.Body.data GithubRelease.zero = (rel, some e) := by
    rcases hbad with hnone | ⟨ms, k, v, hp, hmem, hk, harr, hnull⟩
    · exact ⟨GithubRelease.zero, GoError.jsonInvalid, by simp [Unmarshal, hnone]⟩
    · have hsome := decodeReleaseMembers_wrong_shape ms k v hmem hk harr hnull
        GithubRelease.zero none
      rw [Unmarshal_object _ ms hp]
      cases hres : decodeReleaseMembers ms GithubRelease.zero none with
      | mk rel err =>
        rw [hres] at hsome
        cases err with
        | none => cases hsome
        | some e => exact ⟨rel, e, rfl⟩
  obtain ⟨rel, e, hu⟩ := herr
  rw [Find_decode_error f get resp rel e hget hs hb hu]
  exact ⟨rfl, e, rfl, Unmarshal_error_isDecode _ _ _ _ hu⟩

/-- Witness of the amended C5: a body that breaks off, and `assets` holding a
number. -/
theorem undecodable_body_is_decode_error_witness :
    ((GithubAssetFinder.Find ⟨"foo/bar", "latest"⟩
        (stub (okResponse "200 OK" "\x7b\"assets\":["))).urls = none ∧
      ∃ e, (GithubAssetFinder.Find ⟨"foo/bar", "latest"⟩
        (stub (okResponse "200 OK" "\x7b\"assets\":["))).err = some e ∧ e.isDecode = true)
    ∧ ((GithubAssetFinder.Find ⟨"foo/bar", "latest"⟩
        (stub (okResponse "200 OK" "\x7b\"assets\":5\x7d"))).urls = none ∧
      ∃ e, (GithubAssetFinder.Find ⟨"foo/bar", "latest"⟩
        (stub (okResponse "200 OK" "\x7b\"assets\":5\x7d"))).err = some e ∧ e.isDecode = true) :=
  ⟨undecodable_body_is_decode_error ⟨"foo/bar", "latest"⟩
      (stub (okResponse "200 OK" "\x7b\"assets\":[")) (okResponse "200 OK" "\x7b\"assets\":[")
      rfl rfl rfl (Or.inl rfl),
   undecodable_body_is_decode_error ⟨"foo/bar", "latest"⟩
      (stub (okResponse "200 OK" "\x7b\"assets\":5\x7d")) (okResponse "200 OK" "\x7b\"assets\":5\x7d")
      rfl rfl rfl
      (Or.inr ⟨[("assets", JSON.number "5")], "assets", JSON.number "5", rfl,
        List.mem_cons_self _ _, by decide, rfl, rfl⟩)⟩

/-- C6 as stated fails: to a body that yields `["u"]`, adding the top-level
field `Assets` (a key other than `assets`) with the value 5 makes `Find` fail,
and adding the field `Browser_Download_Url` (a key other than
`browser_download_url`) to the asset record changes the sequence to `["w"]`. -/
theorem added_field_differing_in_case_is_decoded :
    GithubAssetFinder.Find ⟨"foo/bar", "latest"⟩ (stub (okResponse "200 OK"
        "\x7b\"assets\":[\x7b\"browser_download_url\":\"u\"\x7d]\x7d"))
      = ⟨[Call.get "https://api.github.com/repos/foo/bar/releases/latest",
          Call.readAll, Call.close], some ["u"], none⟩
    ∧ GithubAssetFinder.Find ⟨"foo/bar", "latest"⟩ (stub (okResponse "200 OK"
        "\x7b\"assets\":[\x7b\"browser_download_url\":\"u\"\x7d],\"Assets\":5\x7d"))
      = ⟨[Call.get "https://api.github.com/repos/foo/bar/releases/latest",
          Call.readAll, Call.close], none, some (GoError.jsonType "number")⟩
    ∧ GithubAssetFinder.Find ⟨"foo/bar", "latest"⟩ (stub (okResponse "200 OK"
        "\x7b\"assets\":[\x7b\"browser_download_url\":\"u\",\"Browser_Download_Url\":\"w\"\x7d]\x7d"))
      = ⟨[Call.get "https://api.github.com/repos/foo/bar/releases/latest",
          Call.readAll, Call.close], some ["w"], none⟩ :=
  ⟨by decide, by decide, by decide⟩

/-- C6, amended: take an HTTP 200 response whose body is a JSON object on which
`Find` succeeds, and a second one whose body is the same object with further
fields, at the top level under keys the decoder does not match with `assets`
(exactly or case-insensitively), in asset records under keys it does not match
with `browser_download_url`, and which is still a JSON text the decoder
accepts.  Then `Find` succeeds on the second one too and returns the same
sequence. -/
theorem unmatched_fields_are_ignored (f : GithubAssetFinder) (get get2 : HTTPGet)
    (resp resp2 : Response) (ms ms2 : List (String × JSON))
    (hget : get f.url = Except.ok resp) (hget2 : get2 f.url = Except.ok resp2)
    (hs : resp.StatusCode = StatusOK) (hs2 : resp2.StatusCode = StatusOK)
    (hb : resp.Body.err = none) (hb2 : resp2.Body.err = none)
    (hp : parse resp.Body.data = some (JSON.object ms))
    (hp2 : parse resp2.Body.data = some (JSON.object ms2))
    (hext : ReleaseExt ms ms2)
    (hok : (f.Find get).err = none) :
    (f.Find get2).err = none ∧ (f.Find get2).urls = (f.Find get).urls := by
  have hu : Unmarshal resp2.Body.data GithubRelease.zero
      = Unmarshal resp.Body.data GithubRelease.zero := by
    rw [Unmarshal_object _ ms hp, Unmarshal_object _ ms2 hp2]
    exact decodeReleaseMembers_ext hext _ _
  cases hres : Unmarshal resp.Body.data GithubRelease.zero with
  | mk rel err =>
    cases err with
    | some e =>
      rw [Find_decode_error f get resp rel e hget hs hb hres] at hok
      cases hok
    | none =>
      rw [Find_decoded f get resp rel hget hs hb hres,
        Find_decoded f get2 resp2 rel hget2 hs2 hb2 (hu.trans hres)]
      exact ⟨rfl, rfl⟩

/-- Witness of the amended C6: the fields `id`, `tag_name`, `name` and `size`
are added around one asset. -/
theorem unmatched_fields_are_ignored_witness :
    (GithubAssetFinder.Find ⟨"foo/bar", "latest"⟩ (stub (okResponse "200 OK"
        "\x7b\"id\":1,\"assets\":[\x7b\"name\":\"n\",\"browser_download_url\":\"u\",\"size\":2\x7d],\"tag_name\":\"v1\"\x7d"))).err
      = none
    ∧ (GithubAssetFinder.Find ⟨"foo/bar", "latest"⟩ (stub (okResponse "200 OK"
        "\x7b\"id\":1,\"assets\":[\x7b\"name\":\"n\",\"browser_download_url\":\"u\",\"size\":2\x7d],\"tag_name\":\"v1\"\x7d"))).urls
      = (GithubAssetFinder.Find ⟨"foo/bar", "latest"⟩ (stub (okResponse "200 OK"
        "\x7b\"assets\":[\x7b\"browser_download_url\":\"u\"\x7d]\x7d"))).urls :=
  unmatched_fields_are_ignored ⟨"foo/bar", "latest"⟩
    (stub (okResponse "200 OK" "\x7b\"assets\":[\x7b\"browser_download_url\":\"u\"\x7d]\x7d"))
    (stub (okResponse "200 OK"
      "\x7b\"id\":1,\"assets\":[\x7b\"name\":\"n\",\"browser_download_url\":\"u\",\"size\":2\x7d],\"tag_name\":\"v1\"\x7d"))
    (okResponse "200 OK" "\x7b\"assets\":[\x7b\"browser_download_url\":\"u\"\x7d]\x7d")
    (okResponse "200 OK"
      "\x7b\"id\":1,\"assets\":[\x7b\"name\":\"n\",\"browser_download_url\":\"u\",\"size\":2\x7d],\"tag_name\":\"v1\"\x7d")
    [("assets", JSON.array [JSON.object [("browser_download_url", JSON.string "u")]])]
    [("id", JSON.number "1"),
     ("assets", JSON.array [JSON.object [("name", JSON.string "n"),
        ("browser_download_url", JSON.string "u"), ("size", JSON.number "2")]]),
     ("tag_name", JSON.string "v1")]
    rfl rfl rfl rfl rfl rfl rfl rfl
    (ReleaseExt.add "id" _ (by decide)
      (ReleaseExt.keep "assets"
        (ValueExt.array (List.Forall₂.cons
          (RecordExt.object
            (AddedMembers.add "name" _ (by decide)
              (AddedMembers.keep _ (AddedMembers.add "size" _ (by decide) AddedMembers.nil))))
          List.Forall₂.nil))
        (ReleaseExt.add "tag_name" _ (by decide) ReleaseExt.nil)))
    (by decide)

/-- C7 as stated fails: the `assets` array of the first body has one object
entry, and `Find` returns an error and no sequence, because the entry's
`browser_download_url` is a number; the one record of the second body has no
field `browser_download_url`, and the element returned for it is `"x"`, not
the empty string, because its field `BROWSER_DOWNLOAD_URL` is decoded. -/
theorem record_with_other_url_field :
    parse "\x7b\"assets\":[\x7b\"browser_download_url\":5\x7d]\x7d"
      = some (JSON.object [("assets",
          JSON.array [JSON.object [("browser_download_url", JSON.number "5")]])])
    ∧ GithubAssetFinder.Find ⟨"foo/bar", "latest"⟩ (stub (okResponse "200 OK"
        "\x7b\"assets\":[\x7b\"browser_download_url\":5\x7d]\x7d"))
      = ⟨[Call.get "https://api.github.com/repos/foo/bar/releases/latest",
          Call.readAll, Call.close], none, some (GoError.jsonType "number")⟩
    ∧ parse "\x7b\"assets\":[\x7b\"BROWSER_DOWNLOAD_URL\":\"x\"\x7d]\x7d"
      = some (JSON.object [("assets",
          JSON.array [JSON.object [("BROWSER_DOWNLOAD_URL", JSON.string "x")]])])
    ∧ GithubAssetFinder.Find ⟨"foo/bar", "latest"⟩ (stub (okResponse "200 OK"
        "\x7b\"assets\":[\x7b\"BROWSER_DOWNLOAD_URL\":\"x\"\x7d]\x7d"))
      = ⟨[Call.get "https://api.github.com/repos/foo/bar/releases/latest",
          Call.readAll, Call.close], some ["x"], none⟩ :=
  ⟨rfl, by decide, rfl, by decide⟩

/-- C7, amended: take an HTTP 200 response, read in full, whose body is a JSON
object with exactly one member that the decoder matches with `assets`
(exactly or case-insensitively), that member being an array of `n` objects in
each of which every member matched with `browser_download_url` holds a string.
Then `Find` returns no error and a sequence of length `n` whose `i`-th element
is the value of the last such member of the `i`-th record, and the empty
string when the record has no such member: records without a download URL are
not filtered. -/
theorem records_without_url_are_kept (f : GithubAssetFinder) (get : HTTPGet)
    (resp : Response) (pre post : List (String × JSON)) (k : String)
    (records : List JSON)
    (hget : get f.url = Except.ok resp) (hs : resp.StatusCode = StatusOK)
    (hb : resp.Body.err = none)
    (hp : parse resp.Body.data
      = some (JSON.object (pre ++ (k, JSON.array records) :: post)))
    (hk : fieldMatches "assets" k = true)
    (hpre : ∀ m ∈ pre, fieldMatches "assets" m.1 = false)
    (hpost : ∀ m ∈ post, fieldMatches "assets" m.1 = false)
    (hrec : ∀ r ∈ records, IsAssetRecord r) :
    (f.Find get).err = none
    ∧ (f.Find get).urls = some (records.map recordURL)
    ∧ (records.map recordURL).length = records.length
    ∧ (∀ ms, (∀ m ∈ ms, fieldMatches "browser_download_url" m.1 = false) →
        recordURL (JSON.object ms) = "")
    ∧ (∀ ms1 ms2 k1 s, fieldMatches "browser_download_url" k1 = true →
        (∀ m ∈ ms2, fieldMatches "browser_download_url" m.1 = false) →
        recordURL (JSON.object (ms1 ++ (k1, JSON.string s) :: ms2)) = s) := by
  have hu : Unmarshal resp.Body.data GithubRelease.zero
      = (⟨⟨records.map fun r => (⟨recordURL r⟩ : Asset), []⟩⟩, none) := by
    rw [Unmarshal_object _ _ hp, decodeReleaseMembers_skip pre hpre, decodeReleaseMembers,
      if_pos hk]
    have hpost2 := decodeReleaseMembers_skip post hpost []
    simp only [List.append_nil] at hpost2
    rw [hpost2]
    simp only [GithubRelease.zero, decodeSlice_records records hrec, decodeReleaseMembers]
  rw [Find_decoded f get resp _ hget hs hb hu]
  refine ⟨rfl, by simp [Function.comp_def], by simp, ?_, ?_⟩
  · intro ms hms
    have hnil : ms.filter (fun m => fieldMatches "browser_download_url" m.1) = [] := by
      rw [List.filter_eq_nil_iff]
      intro m hm
      rw [hms m hm]
      simp
    simp [recordURL, lastURL, hnil]
  · intro ms1 ms2 k1 s hk1 hms2
    have hnil : ms2.filter (fun m => fieldMatches "browser_download_url" m.1) = [] := by
      rw [List.filter_eq_nil_iff]
      intro m hm
      rw [hms2 m hm]
      simp
    simp [recordURL, lastURL, List.filter_append, List.filter_cons, hk1, hnil]

/-- Witness of the amended C7: two records, the second without a download
URL; `Find` returns `["u", ""]`. -/
theorem records_without_url_are_kept_witness :
    (GithubAssetFinder.Find ⟨"foo/bar", "latest"⟩ (stub (okResponse "200 OK"
        "\x7b\"id\":1,\"assets\":[\x7b\"browser_download_url\":\"u\"\x7d,\x7b\"name\":\"n\"\x7d]\x7d"))).err
      = none
    ∧ (GithubAssetFinder.Find ⟨"foo/bar", "latest"⟩ (stub (okResponse "200 OK"
        "\x7b\"id\":1,\"assets\":[\x7b\"browser_download_url\":\"u\"\x7d,\x7b\"name\":\"n\"\x7d]\x7d"))).urls
      = some ["u", ""] := by
  have h := records_without_url_are_kept ⟨"foo/bar", "latest"⟩
    (stub (okResponse "200 OK"
      "\x7b\"id\":1,\"assets\":[\x7b\"browser_download_url\":\"u\"\x7d,\x7b\"name\":\"n\"\x7d]\x7d"))
    (okResponse "200 OK"
      "\x7b\"id\":1,\"assets\":[\x7b\"browser_download_url\":\"u\"\x7d,\x7b\"name\":\"n\"\x7d]\x7d")
    [("id", JSON.number "1")] [] "assets"
    [JSON.object [("browser_download_url", JSON.string "u")],
     JSON.object [("name", JSON.string "n")]]
    rfl rfl rfl rfl (by decide)
    (by
      intro m hm
      rw [List.mem_singleton.mp hm]
      decide)
    (by
      intro m hm
      cases hm)
    (by
      intro r hr
      rcases List.mem_cons.mp hr with h1 | h2
      · refine ⟨_, h1, ?_⟩
        intro k w hmem _
        have hkw : (k, w) = ("browser_download_url", JSON.string "u") :=
          List.mem_singleton.mp hmem
        exact ⟨"u", congrArg Prod.snd hkw⟩
      · rw [List.mem_singleton.mp h2]
        refine ⟨_, rfl, ?_⟩
        intro k w hmem hkm
        have hkw : (k, w) = ("name", JSON.string "n") := List.mem_singleton.mp hmem
        have hk : k = "name" := congrArg Prod.fst hkw
        rw [hk] at hkm
        exact absurd hkm (by decide))
  exact ⟨h.1, h.2.1⟩

end Eget
